import Mathlib

/-!
Shallow embedding of the RsGenetic sequential simulator core:
`src/sim/seq.rs` (Simulator, kill_off, step, run, get, population, iterations,
SimulatorBuilder) and `src/sim/select/tournament.rs` (TournamentSelector).

Rust panics (index out of bounds, usize underflow feeding an index, integer
division by zero) are modelled by `Option`: a function returns `none` exactly
when the corresponding Rust code panics.  Randomness (`rand::thread_rng`) is
modelled by an explicit tape of naturals: the k-th call of
`gen_range::<usize>(0, m)` yields `tape k % m`, so every realisable sequence of
uniform draws corresponds to some tape.  Phenotype fitness (`f64` in the
source) is modelled as a rational number: the specification requires a real
number score that is totally comparable for selection purposes.
-/

namespace RsGenetic

/-- Modelled from the spec (section 3): the `FitnessType` enumeration
`{Maximize, Minimize}` (its defining file `src/sim/mod.rs` is not under src/). -/
inductive FitnessType
  | Maximize
  | Minimize
deriving DecidableEq, Repr

/-- Modelled from the spec (section 6): the `step()` outcome
`{Success, Done, Failure}` (its defining file `src/sim/mod.rs` is not under src/). -/
inductive StepResult
  | Success
  | Failure
  | Done
deriving DecidableEq, Repr

/-- Modelled from the spec (section 6): the `run()` outcome `{Done, Failure}`
(its defining file `src/sim/mod.rs` is not under src/). -/
inductive RunResult
  | Done
  | Failure
deriving DecidableEq, Repr

/-- Modelled from the spec (section 3): the Phenotype capability contract
(its defining file `src/pheno.rs` is not under src/): a deterministic fitness
score, a pure crossover of two parents into one child, and a pure mutation. -/
structure Pheno (T : Type) where
  fitness : T → ℚ
  crossover : T → T → T
  mutate : T → T

/-- A sequence of parent pairs, `type Parents<T> = Vec<(Box<T>, Box<T>)>`. -/
abbrev Parents (T : Type) := List (T × T)

/-- A selector call as the simulator sees it (the `Selector<T>` trait object of
`src/sim/select/mod.rs`, not under src/): given the population and the fitness
type it returns `Ok(parents)` or `Err(message)`; `none` models a panic inside
the selector.  The randomness of a concrete selector is inside the closure. -/
abbrev SelFun (T : Type) := List T → FitnessType → Option (Except String (Parents T))

/-- The ascending sort used at tournament.rs lines 55-57, seq.rs lines 94-97 and
seq.rs lines 137-140:
`sort_by(|x, y| x.fitness().partial_cmp(&y.fitness()).unwrap_or(Ordering::Equal))`.
On rational fitness values the comparator is the total order on `ℚ`.  Rust
`sort_by` is a stable ascending sort; it is modelled by the stable
`List.insertionSort` under the same comparator, which produces the same list as
any other stable sort for a total transitive comparator. -/
def sortByFitness {T : Type} (f : T → ℚ) (l : List T) : List T :=
  l.insertionSort (fun x y => f x ≤ f y)

/-- tournament.rs lines 52-53: one draw
`rng.gen_range::<usize>(0, population.len())` followed by
`population[index].clone()`.  The k-th tape entry reduced mod the population
length is the drawn index; indexing an empty population is a panic (`none`). -/
def draw {T : Type} (pop : List T) (tape : Nat → Nat) (k : Nat) : Option T :=
  pop[tape k % pop.length]?

/-- tournament.rs lines 50-54: build one tournament of `participants` draws,
consuming tape positions `base, base+1, ...` in order. -/
def sampleDraws {T : Type} (pop : List T) (tape : Nat → Nat) : Nat → Nat → Option (List T)
  | _, 0 => some []
  | base, p + 1 => do
    let x ← draw pop tape base
    let rest ← sampleDraws pop tape (base + 1) p
    pure (x :: rest)

/-- tournament.rs lines 58-66: take the top two of the sorted tournament.
For `Maximize` the source reads `tournament[tournament.len() - 1]` and
`tournament[tournament.len() - 2]`; when the tournament has fewer than two
members the usize subtraction `len - 2` underflows and the access is out of
bounds, a Rust panic, modelled by the explicit `2 ≤ t.length` guard.  For
`Minimize` the source reads `tournament[0]` and `tournament[1]`, out of bounds
(panic, `none`) exactly when the tournament has fewer than two members. -/
def topTwo {T : Type} (ft : FitnessType) (t : List T) : Option (T × T) :=
  match ft with
  | .Maximize =>
    if 2 ≤ t.length then
      match t[t.length - 1]?, t[t.length - 2]? with
      | some a, some b => some (a, b)
      | _, _ => none
    else none
  | .Minimize =>
    match t[0]?, t[1]? with
    | some a, some b => some (a, b)
    | _, _ => none

/-- tournament.rs lines 49-67: `count/2` tournament rounds.  The round starting
at tape position `base` draws its `participants` members, sorts them by fitness
and pushes the top two as one parent pair; the next round continues at tape
position `base + participants`. -/
def tournamentRounds {T : Type} (f : T → ℚ) (pop : List T) (participants : Nat)
    (tape : Nat → Nat) (ft : FitnessType) : Nat → Nat → Option (Parents T)
  | _, 0 => some []
  | base, r + 1 =>
    match sampleDraws pop tape base participants with
    | none => none
    | some sample =>
      match topTwo ft (sortByFitness f sample) with
      | none => none
      | some pair =>
        match tournamentRounds f pop participants tape ft (base + participants) r with
        | none => none
        | some rest => some (pair :: rest)

/-- tournament.rs lines 8-12. -/
structure TournamentSelector where
  count : Nat
  participants : Nat
deriving DecidableEq, Repr

/-- tournament.rs lines 31-69: parameter validation followed by the tournament
rounds.  `count` and `participants` are usize, so `count <= 0` is `count = 0`
and `count % 2 != 0` is `count % 2 ≠ 0`. -/
def TournamentSelector.select {T : Type} (s : TournamentSelector) (f : T → ℚ)
    (tape : Nat → Nat) (pop : List T) (ft : FitnessType) :
    Option (Except String (Parents T)) :=
  if s.count = 0 ∨ s.count % 2 ≠ 0 ∨ s.count * 2 ≥ pop.length then
    some (.error ("Invalid parameter `count`: " ++ toString s.count ++
      ". Should be larger than zero, a multiple of two and less than half the population size."))
  else if s.participants = 0 ∨ s.participants ≥ pop.length then
    some (.error ("Invalid parameter `participants`: " ++ toString s.participants ++
      ". Should be larger than zero and less than the population size."))
  else
    (tournamentRounds f pop s.participants tape ft 0 (s.count / 2)).map .ok

/-- Modelled from the spec (sections 3 and 4.5): the `IterLimit` counter
(its defining file `src/sim/iterlimit.rs` is not under src/): a
`(current, max)` pair, `current` starts at 0 and increments once per completed
generation, reached exactly when `current ≥ max`, and `get` exposes `current`.
The source type is u64; the counter is only incremented while below its cap,
so plain naturals are faithful. -/
structure IterLimit where
  curr : Nat
  max : Nat
deriving DecidableEq, Repr

def IterLimit.new (m : Nat) : IterLimit := ⟨0, m⟩

def IterLimit.reached (l : IterLimit) : Bool := decide (l.max ≤ l.curr)

def IterLimit.inc (l : IterLimit) : IterLimit := ⟨l.curr + 1, l.max⟩

def IterLimit.get (l : IterLimit) : Nat := l.curr

/-- Modelled from the spec (sections 3 and 4.4): the `EarlyStopper` convergence
detector (its defining file `src/sim/earlystopper.rs` is not under src/): it
holds a delta threshold, a window size and a running history of best fitness
values; `update` appends the new value and drops the oldest entry once the
window is exceeded; `reached` holds once enough samples exist to compare the
newest value against the value a window back with absolute difference below
delta.  No claim exercises its numerics; the simulator only forwards it. -/
structure EarlyStopper where
  delta : ℚ
  window : Nat
  history : List ℚ
deriving DecidableEq, Repr

def EarlyStopper.new (d : ℚ) (w : Nat) : EarlyStopper := ⟨d, w, []⟩

def EarlyStopper.update (st : EarlyStopper) (v : ℚ) : EarlyStopper :=
  let h := st.history ++ [v]
  ⟨st.delta, st.window, if st.window < h.length then h.drop 1 else h⟩

def EarlyStopper.reached (st : EarlyStopper) : Bool :=
  match st.history.head?, st.history.getLast? with
  | some oldest, some newest =>
    decide (st.window ≤ st.history.length) && decide (|newest - oldest| < st.delta)
  | _, _ => false

/-- seq.rs lines 18-27.  The boxed selector trait object is modelled as an
explicit argument of `Simulator.step`; the wall clock `duration` field is
real-time state outside the shallow embedding and no claim concerns it. -/
structure Simulator (T : Type) where
  population : List T
  iter_limit : IterLimit
  fitness_type : FitnessType
  earlystopper : Option EarlyStopper
  error : Option String
deriving DecidableEq, Repr

/-- seq.rs lines 63-64: the error message recorded for an empty population. -/
def emptyPopMsg : String :=
  "Tried to run a simulator without a population, or the population was empty."

/-- The sort-and-pick expression shared verbatim by seq.rs lines 94-102
(early stopper update) and seq.rs lines 137-144 (`get`): sort a cloned view of
the population ascending by fitness and take `cloned[cloned.len() - 1]`
(`Maximize`) or `cloned[0]` (`Minimize`).  On an empty population both reads
are out of bounds (for `Maximize` after a usize underflow), a panic (`none`). -/
def bestOf {T : Type} (f : T → ℚ) : FitnessType → List T → Option T
  | .Maximize, pop => (sortByFitness f pop)[(sortByFitness f pop).length - 1]?
  | .Minimize, pop => (sortByFitness f pop)[0]?

/-- seq.rs lines 164-175, `Simulator::kill_off` inner loop (lines 168-174):
remove the member at index `i`, advance `i` by `ratio - 1` and reduce it modulo
the shrunken length, `count` times.  Reducing modulo zero (the population ran
out) is a Rust panic (`none`), as is an out of bounds removal.  The usize
subtraction `ratio - 1` underflows when `ratio = 0`, which happens only when
`count` exceeds the population length; every such run inevitably ends in the
modulo zero panic whatever indices are removed, so the truncated natural
subtraction used here does not change any observable outcome. -/
def killOffGo {T : Type} (ratio : Nat) : List T → Nat → Nat → Option (List T)
  | pop, _, 0 => some pop
  | pop, i, c + 1 =>
    if i < pop.length then
      if (pop.eraseIdx i).length = 0 then none
      else killOffGo ratio (pop.eraseIdx i) ((i + (ratio - 1)) % (pop.eraseIdx i).length) c
    else none

/-- seq.rs lines 164-175: `ratio = population.len() / count` (integer division,
a panic when `count = 0`), a uniformly random start index
`gen_range(0, population.len())` (a panic when the population is empty,
modelled from the tape value `start` as `start % len`), then the removal loop. -/
def kill_off {T : Type} (pop : List T) (start : Nat) (count : Nat) : Option (List T) :=
  if count = 0 then none
  else if pop.length = 0 then none
  else killOffGo (pop.length / count) pop (start % pop.length) count

/-- seq.rs lines 61-119, `Simulator::step`.  `sel` is the selector trait object
call, `start` the tape value behind the `gen_range` draw of `kill_off`;
`none` models a panic during the step. -/
def Simulator.step {T : Type} (ph : Pheno T) (sel : SelFun T) (start : Nat)
    (sim : Simulator T) : Option (StepResult × Simulator T) :=
  if sim.population.isEmpty then
    some (.Failure, { sim with error := some emptyPopMsg })
  else
    let should_stop := match sim.earlystopper with
      | some x => sim.iter_limit.reached || x.reached
      | none => sim.iter_limit.reached
    if should_stop then
      some (.Done, sim)
    else
      match sel sim.population sim.fitness_type with
      | none => none
      | some (.error e) => some (.Failure, { sim with error := some e })
      | some (.ok parents) =>
        let children := parents.map (fun pair => ph.mutate (ph.crossover pair.1 pair.2))
        match kill_off sim.population start children.length with
        | none => none
        | some culled =>
          let pop2 := culled ++ children
          match sim.earlystopper with
          | none =>
            some (.Success, { sim with population := pop2, iter_limit := sim.iter_limit.inc })
          | some stopper =>
            match bestOf ph.fitness sim.fitness_type pop2 with
            | none => none
            | some best =>
              some (.Success, { sim with
                population := pop2,
                earlystopper := some (stopper.update (ph.fitness best)),
                iter_limit := sim.iter_limit.inc })

/-- seq.rs lines 122-131, `Simulator::run`: call `step` until it reports Done
or Failure.  The source loop has no a priori bound, so the model executes at
most `fuel` steps and returns `none` when the bound is exhausted (or a step
panics).  `k` numbers the step calls so that each call sees its own selector
randomness (`sels k`) and its own `kill_off` draw (`starts k`). -/
def runAux {T : Type} (ph : Pheno T) (sels : Nat → SelFun T) (starts : Nat → Nat) :
    Nat → Nat → Simulator T → Option (RunResult × Simulator T)
  | 0, _, _ => none
  | fuel + 1, k, sim =>
    match Simulator.step ph (sels k) (starts k) sim with
    | none => none
    | some (.Success, s2) => runAux ph sels starts fuel (k + 1) s2
    | some (.Failure, s2) => some (.Failure, s2)
    | some (.Done, s2) => some (.Done, s2)

/-- A caller issuing `j` consecutive `step()` calls (callers may keep calling
`step` after termination); returns the trace of step results and the final
state, `none` when some call panics. -/
def iterSteps {T : Type} (ph : Pheno T) (sels : Nat → SelFun T) (starts : Nat → Nat) :
    Nat → Nat → Simulator T → Option (List StepResult × Simulator T)
  | 0, _, sim => some ([], sim)
  | j + 1, k, sim =>
    match Simulator.step ph (sels k) (starts k) sim with
    | none => none
    | some (res, s2) =>
      match iterSteps ph sels starts j (k + 1) s2 with
      | none => none
      | some (tr, s3) => some (res :: tr, s3)

/-- seq.rs lines 133-147, `Simulator::get`: the recorded error if any,
otherwise the best member of the sorted population (a panic, `none`, when the
population is empty and no error is recorded). -/
def Simulator.get {T : Type} (f : T → ℚ) (sim : Simulator T) : Option (Except String T) :=
  match sim.error with
  | some e => some (.error e)
  | none => (bestOf f sim.fitness_type sim.population).map .ok

/-- seq.rs lines 149-151, `fn population(&self) -> Option<&Vec<Box<T>>>`:
`Some(&self.population)`.  Named `populationView` because `population` is the
field name. -/
def Simulator.populationView {T : Type} (sim : Simulator T) : Option (List T) :=
  some sim.population

/-- seq.rs lines 153-155. -/
def Simulator.iterations {T : Type} (sim : Simulator T) : Nat :=
  sim.iter_limit.get

/-- seq.rs lines 47-59: the simulator produced by `Simulator::builder()` before
any builder call: empty population, `IterLimit::new(100)`, `Maximize`, no
early stopper, no error (the default boxed selector `MaximizeSelector::new(4)`
is modelled at the step call site; `duration` is not modelled). -/
def Simulator.builderDefault (T : Type) : Simulator T :=
  { population := []
    iter_limit := IterLimit.new 100
    fitness_type := .Maximize
    earlystopper := none
    error := none }

/-- seq.rs lines 188-191, `SimulatorBuilder::set_population`. -/
def SimulatorBuilder.set_population {T : Type} (pop : List T) (sim : Simulator T) :
    Simulator T :=
  { sim with population := pop }

/-- seq.rs lines 198-201, `SimulatorBuilder::set_max_iters`. -/
def SimulatorBuilder.set_max_iters {T : Type} (i : Nat) (sim : Simulator T) :
    Simulator T :=
  { sim with iter_limit := IterLimit.new i }

/-- Did the call end in `Err(..)`? -/
def isErrRes {α : Type} : Option (Except String α) → Bool
  | some (.error _) => true
  | _ => false

/-- The concrete test phenotype of seq.rs lines 244-267 (also
tournament.rs lines 79-102), used to instantiate witnesses: fitness is the
absolute value, crossover the minimum, mutation one step toward zero. -/
def testPheno : Pheno Int :=
  { fitness := fun t => (t.natAbs : ℚ)
    crossover := fun a b => min a b
    mutate := fun t => if t < 0 then t + 1 else if 0 < t then t - 1 else t }

/-! ## Lemmas about the replacement policy (`kill_off`) -/

theorem killOffGo_length {T : Type} (ratio : Nat) :
    ∀ (c : Nat) (pop : List T) (i : Nat) (l : List T),
      killOffGo ratio pop i c = some l → l.length + c = pop.length := by
  intro c
  induction c with
  | zero =>
    intro pop i l h
    simp [killOffGo] at h
    simp [h]
  | succ c ih =>
    intro pop i l h
    unfold killOffGo at h
    split at h
    case isTrue hi =>
      split at h
      case isTrue => exact absurd h (by simp)
      case isFalse hne =>
        have := ih (pop.eraseIdx i) _ l h
        have hlen := List.length_eraseIdx_of_lt hi
        omega
    case isFalse => exact absurd h (by simp)

theorem killOffGo_isSome {T : Type} (ratio : Nat) :
    ∀ (c : Nat) (pop : List T) (i : Nat), i < pop.length → c < pop.length →
      ∃ l, killOffGo ratio pop i c = some l := by
  intro c
  induction c with
  | zero => intro pop i _ _; exact ⟨pop, rfl⟩
  | succ c ih =>
    intro pop i hi hc
    have hlen := List.length_eraseIdx_of_lt hi
    have hne : (pop.eraseIdx i).length ≠ 0 := by omega
    have hmod : (i + (ratio - 1)) % (pop.eraseIdx i).length < (pop.eraseIdx i).length :=
      Nat.mod_lt _ (by omega)
    obtain ⟨l, hl⟩ := ih (pop.eraseIdx i) ((i + (ratio - 1)) % (pop.eraseIdx i).length)
      hmod (by omega)
    refine ⟨l, ?_⟩
    unfold killOffGo
    simp only [hi, if_pos]
    rw [if_neg hne]
    exact hl

/-- Soundness of `kill_off`: when it returns a population it removed exactly
`count` members. -/
theorem kill_off_length {T : Type} (pop : List T) (start count : Nat) (l : List T)
    (h : kill_off pop start count = some l) : l.length + count = pop.length := by
  unfold kill_off at h
  split at h
  · exact absurd h (by simp)
  · split at h
    · exact absurd h (by simp)
    · exact killOffGo_length _ _ _ _ _ h

/-- Success of `kill_off`: it succeeds whenever `0 < count < population length`. -/
theorem kill_off_isSome {T : Type} (pop : List T) (start count : Nat)
    (h0 : 0 < count) (hlt : count < pop.length) :
    ∃ l, kill_off pop start count = some l ∧ l.length + count = pop.length := by
  have hpos : 0 < pop.length := by omega
  obtain ⟨l, hl⟩ := killOffGo_isSome (pop.length / count) count pop (start % pop.length)
    (Nat.mod_lt _ hpos) hlt
  refine ⟨l, ?_, killOffGo_length _ _ _ _ _ hl⟩
  unfold kill_off
  rw [if_neg (by omega), if_neg (by omega)]
  exact hl

/-- C1: for every generation step that returns `Success`, the replacement
phase removes exactly `len(children)` members before appending the children, so
the population size after the step equals the size before it. -/
theorem claim_c1_step_success_preserves_size {T : Type} (ph : Pheno T) (sel : SelFun T)
    (start : Nat) (sim sim2 : Simulator T)
    (h : Simulator.step ph sel start sim = some (.Success, sim2)) :
    sim2.population.length = sim.population.length := by
  unfold Simulator.step at h
  split at h
  · simp at h
  · dsimp only at h
    split at h
    · simp at h
    · split at h
      · simp at h
      · simp at h
      · rename_i parents hsel
        split at h
        · simp at h
        · rename_i culled hkill
          have hclen := kill_off_length _ _ _ _ hkill
          split at h
          · simp only [Option.some.injEq, Prod.mk.injEq] at h
            obtain ⟨-, h2⟩ := h
            subst h2
            simp only [List.length_append, List.length_map] at *
            omega
          · split at h
            · simp at h
            · simp only [Option.some.injEq, Prod.mk.injEq] at h
              obtain ⟨-, h2⟩ := h
              subst h2
              simp only [List.length_append, List.length_map] at *
              omega

def selC1 : SelFun Int :=
  fun pop ft => (TournamentSelector.mk 2 2).select testPheno.fitness (fun _ => 0) pop ft

def simC1 : Simulator Int :=
  { population := [0, 1, 2, 3, 4]
    iter_limit := ⟨0, 100⟩
    fitness_type := .Maximize
    earlystopper := none
    error := none }

def simC1out : Simulator Int :=
  { population := [1, 2, 3, 4, 0]
    iter_limit := ⟨1, 100⟩
    fitness_type := .Maximize
    earlystopper := none
    error := none }

/-- C1 witness: a concrete successful step of the tournament selector on a
five member population keeps the population at five members. -/
theorem claim_c1_witness : simC1out.population.length = simC1.population.length :=
  claim_c1_step_success_preserves_size testPheno selC1 0 simC1 simC1out (by decide)

/-- C10: `population()` returns `Some` view of the current population in every
state, never `None`, even though its return type is optional. -/
theorem claim_c10_population_always_some {T : Type} (sim : Simulator T) :
    Simulator.populationView sim = some sim.population :=
  rfl

/-- C3: `select` returns an error whenever `count = 0`, `count` is odd,
`2 * count ≥ population size`, `participants = 0` or
`participants ≥ population size`; in every such case the result is `Err` and no
pairs are produced. -/
theorem claim_c3_select_rejects_invalid_parameters {T : Type} (s : TournamentSelector)
    (f : T → ℚ) (tape : Nat → Nat) (pop : List T) (ft : FitnessType)
    (h : s.count = 0 ∨ s.count % 2 = 1 ∨ 2 * s.count ≥ pop.length ∨
         s.participants = 0 ∨ s.participants ≥ pop.length) :
    isErrRes (s.select f tape pop ft) = true := by
  unfold TournamentSelector.select
  split
  · rfl
  · split
    · rfl
    · rename_i h1 h2
      push_neg at h1 h2
      omega

/-- C3 witness: count = 0 is rejected on a three member population. -/
theorem claim_c3_witness :
    isErrRes ((TournamentSelector.mk 0 1).select testPheno.fitness (fun _ => 0)
      ([0, 1, 2] : List Int) .Minimize) = true :=
  claim_c3_select_rejects_invalid_parameters (TournamentSelector.mk 0 1) testPheno.fitness
    (fun _ => 0) ([0, 1, 2] : List Int) .Minimize (by decide)

/-- C4, evaluated at the failing input: `participants = 1` with `count = 2`
passes validation on a five member population, but the top two extraction then
reads `tournament[tournament.len() - 2]` of a one member tournament, a usize
underflow whose resulting index is out of bounds: the call panics (`none`)
instead of returning Ok, contradicting the claim that every
validation-passing call returns Ok without panicking. -/
theorem claim_c4_participants_one_panics :
    (TournamentSelector.mk 2 1).select testPheno.fitness (fun _ => 0)
      ([0, 1, 2, 3, 4] : List Int) FitnessType.Maximize = none := by
  rfl

/-! ## Facts about the fitness sort and the best element -/

theorem sortByFitness_perm {T : Type} (f : T → ℚ) (l : List T) :
    (sortByFitness f l).Perm l :=
  List.perm_insertionSort _ l

theorem sortByFitness_pairwise {T : Type} (f : T → ℚ) (l : List T) :
    (sortByFitness f l).Pairwise (fun x y => f x ≤ f y) := by
  haveI : IsTotal T (fun x y => f x ≤ f y) := ⟨fun a b => le_total (f a) (f b)⟩
  haveI : IsTrans T (fun x y => f x ≤ f y) := ⟨fun _ _ _ h1 h2 => le_trans h1 h2⟩
  exact List.sorted_insertionSort _ l

theorem exists_concat_two {T : Type} (t : List T) (h : 2 ≤ t.length) :
    ∃ ys b a, t = ys ++ [b, a] := by
  cases hr : t.reverse with
  | nil =>
    have := congrArg List.length hr
    simp only [List.length_reverse, List.length_nil] at this
    omega
  | cons a r1 =>
    cases r1 with
    | nil =>
      have := congrArg List.length hr
      simp only [List.length_reverse, List.length_cons, List.length_nil] at this
      omega
    | cons b zs =>
      refine ⟨zs.reverse, b, a, ?_⟩
      rw [← t.reverse_reverse, hr]
      simp

/-- The shared sort-and-pick expression returns a member that is optimal for
the active fitness type whenever the population is non-empty. -/
theorem bestOf_spec {T : Type} (f : T → ℚ) (ft : FitnessType) (pop : List T)
    (hne : pop ≠ []) :
    ∃ b, bestOf f ft pop = some b ∧ b ∈ pop ∧ ∀ x ∈ pop,
      (ft = .Maximize → f x ≤ f b) ∧ (ft = .Minimize → f b ≤ f x) := by
  have hperm := sortByFitness_perm f pop
  have hpw := sortByFitness_pairwise f pop
  have hlen : (sortByFitness f pop).length = pop.length := hperm.length_eq
  have hlen0 : 0 < pop.length := List.length_pos.mpr hne
  cases ft with
  | Maximize =>
    obtain ⟨ys, a, heq⟩ : ∃ ys a, sortByFitness f pop = ys ++ [a] := by
      rcases List.eq_nil_or_concat (sortByFitness f pop) with h0 | ⟨L, c, hc⟩
      · rw [h0] at hlen; simp at hlen; omega
      · exact ⟨L, c, by rw [hc, List.concat_eq_append]⟩
    refine ⟨a, ?_, ?_, ?_⟩
    · simp only [bestOf]
      rw [heq]
      have hidx : (ys ++ [a]).length - 1 = ys.length := by simp
      rw [hidx, List.getElem?_append_right (Nat.le_refl _)]
      simp
    · exact hperm.mem_iff.mp (by rw [heq]; simp)
    · intro x hx
      refine ⟨fun _ => ?_, fun hcontra => nomatch hcontra⟩
      have hx2 : x ∈ ys ++ [a] := by rw [← heq]; exact hperm.mem_iff.mpr hx
      rcases List.mem_append.mp hx2 with hy | ha
      · rw [heq] at hpw
        have := (List.pairwise_append.mp hpw).2.2
        exact this x hy a (by simp)
      · simp at ha
        subst ha
        exact le_refl _
  | Minimize =>
    cases hs : sortByFitness f pop with
    | nil => rw [hs] at hlen; simp at hlen; omega
    | cons a rest =>
      refine ⟨a, ?_, ?_, ?_⟩
      · simp only [bestOf]
        rw [hs]
        simp
      · exact hperm.mem_iff.mp (by rw [hs]; simp)
      · intro x hx
        refine ⟨(fun hcontra => nomatch hcontra), fun _ => ?_⟩
        have hx2 : x ∈ a :: rest := by rw [← hs]; exact hperm.mem_iff.mpr hx
        rw [hs] at hpw
        rcases List.mem_cons.mp hx2 with hxa | hxr
        · subst hxa; exact le_refl _
        · exact (List.pairwise_cons.mp hpw).1 x hxr

/-! ## Error persistence -/

/-- A step never clears a recorded error. -/
theorem step_error_stays {T : Type} (ph : Pheno T) (sel : SelFun T) (start : Nat)
    (sim sim2 : Simulator T) (res : StepResult)
    (h : Simulator.step ph sel start sim = some (res, sim2))
    (he : sim.error.isSome = true) : sim2.error.isSome = true := by
  unfold Simulator.step at h
  split at h
  · simp only [Option.some.injEq, Prod.mk.injEq] at h
    obtain ⟨-, h2⟩ := h
    subst h2
    simp
  · dsimp only at h
    split at h
    · simp only [Option.some.injEq, Prod.mk.injEq] at h
      obtain ⟨-, h2⟩ := h
      subst h2
      exact he
    · split at h
      · simp at h
      · simp only [Option.some.injEq, Prod.mk.injEq] at h
        obtain ⟨-, h2⟩ := h
        subst h2
        simp
      · split at h
        · simp at h
        · split at h
          · simp only [Option.some.injEq, Prod.mk.injEq] at h
            obtain ⟨-, h2⟩ := h
            subst h2
            exact he
          · split at h
            · simp at h
            · simp only [Option.some.injEq, Prod.mk.injEq] at h
              obtain ⟨-, h2⟩ := h
              subst h2
              exact he

theorem iterSteps_error_stays {T : Type} (ph : Pheno T) (sels : Nat → SelFun T)
    (starts : Nat → Nat) :
    ∀ (j k : Nat) (sim : Simulator T) (tr : List StepResult) (s2 : Simulator T),
      iterSteps ph sels starts j k sim = some (tr, s2) →
      sim.error.isSome = true → s2.error.isSome = true := by
  intro j
  induction j with
  | zero =>
    intro k sim tr s2 h he
    simp [iterSteps] at h
    rw [← h.2]
    exact he
  | succ j ih =>
    intro k sim tr s2 h he
    unfold iterSteps at h
    split at h
    · simp at h
    · rename_i res s2mid hstep
      split at h
      · simp at h
      · rename_i trr s3 hrest
        simp only [Option.some.injEq, Prod.mk.injEq] at h
        obtain ⟨-, h2⟩ := h
        subst h2
        exact ih (k + 1) s2mid trr s3 hrest
          (step_error_stays ph (sels k) (starts k) sim s2mid res hstep he)

theorem get_isErr_of_error {T : Type} (f : T → ℚ) (sim : Simulator T)
    (he : sim.error.isSome = true) : isErrRes (Simulator.get f sim) = true := by
  cases hs : sim.error with
  | none => rw [hs] at he; simp at he
  | some e => simp [Simulator.get, hs, isErrRes]

/-- C7: a step on an empty population records the descriptive empty-population
error and returns Failure, leaving the population and iteration counter
untouched; `get` then reports that error, and keeps reporting an error after
any number of further steps. -/
theorem claim_c7_empty_population_fails {T : Type} (ph : Pheno T) (sel : SelFun T)
    (start : Nat) (sim : Simulator T) (h : sim.population = []) :
    Simulator.step ph sel start sim = some (.Failure, { sim with error := some emptyPopMsg }) ∧
    Simulator.get ph.fitness { sim with error := some emptyPopMsg } =
      some (.error emptyPopMsg) ∧
    (∀ (sels : Nat → SelFun T) (starts : Nat → Nat) (j : Nat) (tr : List StepResult)
       (s2 : Simulator T),
      iterSteps ph sels starts j 0 { sim with error := some emptyPopMsg } = some (tr, s2) →
      isErrRes (Simulator.get ph.fitness s2) = true) := by
  refine ⟨?_, rfl, ?_⟩
  · unfold Simulator.step
    rw [if_pos (by rw [h]; rfl)]
  · intro sels starts j tr s2 hiter
    exact get_isErr_of_error _ _ (iterSteps_error_stays ph sels starts j 0 _ tr s2 hiter rfl)

def simC7out : Simulator Int :=
  { population := []
    iter_limit := ⟨0, 100⟩
    fitness_type := .Maximize
    earlystopper := none
    error := some emptyPopMsg }

/-- C7 witness: stepping the freshly built simulator with its empty population
fails and records the empty-population error. -/
theorem claim_c7_witness :
    Simulator.step testPheno (fun _ _ => some (Except.ok ([] : Parents Int))) 0
      (Simulator.builderDefault Int) = some (StepResult.Failure, simC7out) :=
  (claim_c7_empty_population_fails testPheno (fun _ _ => some (Except.ok [])) 0
    (Simulator.builderDefault Int) rfl).1

/-- C8 counterexample: the claim includes the freshly built simulator (empty
population, no recorded error) among the reachable states in which `get()` is
safe, but there `get()` sorts the empty clone and reads `cloned[len - 1]`, a
usize underflow and out of bounds read: a panic (`none`), not a result. -/
theorem claim_c8_counterexample_get_panics_when_fresh :
    Simulator.get testPheno.fitness (Simulator.builderDefault Int) = none := by
  rfl

/-- C8 as amended: in every state in which an error is recorded or the
population is non-empty, `get()` does not panic: it returns the recorded error
when there is one and otherwise the best population member for the active
fitness type.  (The claim fails only in the empty-population, no-error state,
where `get()` panics.) -/
theorem claim_c8_amended_get_safe {T : Type} (f : T → ℚ) (sim : Simulator T)
    (h : sim.error.isSome = true ∨ sim.population ≠ []) :
    (∀ e, sim.error = some e → Simulator.get f sim = some (.error e)) ∧
    (sim.error = none → ∃ b, Simulator.get f sim = some (.ok b) ∧ b ∈ sim.population ∧
      ∀ x ∈ sim.population,
        (sim.fitness_type = .Maximize → f x ≤ f b) ∧
        (sim.fitness_type = .Minimize → f b ≤ f x)) := by
  constructor
  · intro e he
    simp [Simulator.get, he]
  · intro he
    have hne : sim.population ≠ [] := by
      rcases h with h1 | h2
      · rw [he] at h1; simp at h1
      · exact h2
    obtain ⟨b, hb, hmem, hbound⟩ := bestOf_spec f sim.fitness_type sim.population hne
    refine ⟨b, ?_, hmem, hbound⟩
    simp [Simulator.get, he, hb]

def simC8 : Simulator Int :=
  { population := [3, -1, 2]
    iter_limit := ⟨0, 100⟩
    fitness_type := .Minimize
    earlystopper := none
    error := none }

/-- C8 witness: on a non-empty population with no recorded error, `get` does
return a result. -/
theorem claim_c8_witness : (Simulator.get testPheno.fitness simC8).isSome = true := by
  obtain ⟨b, hb, -, -⟩ :=
    (claim_c8_amended_get_safe testPheno.fitness simC8 (Or.inr (by decide))).2 rfl
  rw [hb]
  rfl

/-! ## Permanence of failure with the tournament selector -/

/-- The parameter combinations the tournament selector rejects on a population
of length `n` (the two validation conditions of tournament.rs lines 36-45). -/
def tournInvalid (s : TournamentSelector) (n : Nat) : Prop :=
  s.count = 0 ∨ s.count % 2 ≠ 0 ∨ s.count * 2 ≥ n ∨
  s.participants = 0 ∨ s.participants ≥ n

/-- Validation depends only on the population length: invalid parameters give
an error on every call, whatever the tape. -/
theorem select_error_of_invalid {T : Type} (s : TournamentSelector) (f : T → ℚ)
    (tape : Nat → Nat) (pop : List T) (ft : FitnessType)
    (h : tournInvalid s pop.length) :
    ∃ e, s.select f tape pop ft = some (.error e) := by
  unfold TournamentSelector.select
  split
  · exact ⟨_, rfl⟩
  · split
    · exact ⟨_, rfl⟩
    · rename_i h1 h2
      push_neg at h1 h2
      unfold tournInvalid at h
      omega

/-- Conversely an error from `select` means the parameters were invalid for
the population length. -/
theorem invalid_of_select_error {T : Type} (s : TournamentSelector) (f : T → ℚ)
    (tape : Nat → Nat) (pop : List T) (ft : FitnessType) (e : String)
    (h : s.select f tape pop ft = some (.error e)) :
    tournInvalid s pop.length := by
  unfold TournamentSelector.select at h
  split at h
  · rename_i h1
    unfold tournInvalid
    omega
  · split at h
    · rename_i h1 h2
      unfold tournInvalid
      omega
    · cases hr : tournamentRounds f pop s.participants tape ft 0 (s.count / 2) with
      | none => rw [hr] at h; simp at h
      | some ps => rw [hr] at h; simp at h

/-- What a Failure step did: it left every field except the error untouched,
recorded some error, and arose either from an empty population or from a
selector error on the unchanged population. -/
theorem step_failure_cases {T : Type} (ph : Pheno T) (sel : SelFun T) (start : Nat)
    (sim sim2 : Simulator T)
    (h : Simulator.step ph sel start sim = some (.Failure, sim2)) :
    sim2.population = sim.population ∧ sim2.iter_limit = sim.iter_limit ∧
    sim2.fitness_type = sim.fitness_type ∧ sim2.earlystopper = sim.earlystopper ∧
    sim2.error.isSome = true ∧
    (sim.population = [] ∨ ∃ e, sel sim.population sim.fitness_type = some (.error e)) := by
  unfold Simulator.step at h
  split at h
  · rename_i hempty
    simp only [Option.some.injEq, Prod.mk.injEq] at h
    obtain ⟨-, h2⟩ := h
    subst h2
    exact ⟨rfl, rfl, rfl, rfl, rfl, Or.inl (List.isEmpty_iff.mp hempty)⟩
  · dsimp only at h
    split at h
    · simp at h
    · split at h
      · simp at h
      · rename_i e hsel
        simp only [Option.some.injEq, Prod.mk.injEq] at h
        obtain ⟨-, h2⟩ := h
        subst h2
        exact ⟨rfl, rfl, rfl, rfl, rfl, Or.inr ⟨e, hsel⟩⟩
      · split at h
        · simp at h
        · split at h
          · simp at h
          · split at h
            · simp at h
            · simp at h

/-- The failed-state invariant for a simulator driven by a tournament
selector: an error is recorded and the population is empty or has a length the
selector validation rejects. -/
def failedInv {T : Type} (s : TournamentSelector) (x : Simulator T) : Prop :=
  x.error.isSome = true ∧ (x.population = [] ∨ tournInvalid s x.population.length)

theorem step_tournament_preserves_failedInv {T : Type} (ph : Pheno T)
    (s : TournamentSelector) (tape : Nat → Nat) (start : Nat)
    (x y : Simulator T) (res : StepResult)
    (hx : failedInv s x)
    (h : Simulator.step ph (s.select ph.fitness tape) start x = some (res, y)) :
    failedInv s y ∧ res ≠ .Success := by
  rcases hx with ⟨herr, hpop⟩
  unfold Simulator.step at h
  split at h
  · rename_i hempty
    simp only [Option.some.injEq, Prod.mk.injEq] at h
    obtain ⟨h1, h2⟩ := h
    subst h2
    refine ⟨⟨rfl, Or.inl (List.isEmpty_iff.mp hempty)⟩, ?_⟩
    rw [← h1]
    simp
  · rename_i hempty
    have hne : x.population ≠ [] := fun hc => hempty (by rw [hc]; rfl)
    have hinv : tournInvalid s x.population.length := by
      rcases hpop with h1 | h2
      · exact absurd h1 hne
      · exact h2
    dsimp only at h
    split at h
    · simp only [Option.some.injEq, Prod.mk.injEq] at h
      obtain ⟨h1, h2⟩ := h
      subst h2
      refine ⟨⟨herr, hpop⟩, ?_⟩
      rw [← h1]
      simp
    · obtain ⟨e, he⟩ := select_error_of_invalid s ph.fitness tape x.population
        x.fitness_type hinv
      rw [he] at h
      simp only [Option.some.injEq, Prod.mk.injEq] at h
      obtain ⟨h1, h2⟩ := h
      subst h2
      refine ⟨⟨rfl, hpop⟩, ?_⟩
      rw [← h1]
      simp

theorem iterSteps_tournament_failedInv {T : Type} (ph : Pheno T)
    (s : TournamentSelector) (tapes : Nat → Nat → Nat) (starts : Nat → Nat) :
    ∀ (j k : Nat) (x : Simulator T) (tr : List StepResult) (s2 : Simulator T),
      failedInv s x →
      iterSteps ph (fun k2 => s.select ph.fitness (tapes k2)) starts j k x = some (tr, s2) →
      failedInv s s2 ∧ StepResult.Success ∉ tr := by
  intro j
  induction j with
  | zero =>
    intro k x tr s2 hx h
    simp [iterSteps] at h
    obtain ⟨h1, h2⟩ := h
    subst h2
    subst h1
    exact ⟨hx, by simp⟩
  | succ j ih =>
    intro k x tr s2 hx h
    unfold iterSteps at h
    split at h
    · simp at h
    · rename_i res s2mid hstep
      split at h
      · simp at h
      · rename_i trr s3 hrest
        simp only [Option.some.injEq, Prod.mk.injEq] at h
        obtain ⟨h1, h2⟩ := h
        subst h2
        obtain ⟨hy, hres⟩ := step_tournament_preserves_failedInv ph s (tapes k) (starts k)
          x s2mid res hx hstep
        obtain ⟨hinv2, hnot⟩ := ih (k + 1) s2mid trr s3 hy hrest
        rw [← h1]
        refine ⟨hinv2, ?_⟩
        simp only [List.mem_cons, not_or]
        exact ⟨fun hc => hres hc.symm, hnot⟩

/-- C9: once a step of a simulator driven by a tournament selector has
returned Failure, the simulator stays failed: the recorded error is never
cleared, no later step returns Success, and every later `get()` returns an
error. -/
theorem claim_c9_failure_is_permanent {T : Type} (ph : Pheno T)
    (s : TournamentSelector) (tape0 : Nat → Nat) (tapes : Nat → Nat → Nat)
    (start0 : Nat) (starts : Nat → Nat) (sim simF : Simulator T)
    (hf : Simulator.step ph (s.select ph.fitness tape0) start0 sim =
      some (.Failure, simF)) :
    simF.error.isSome = true ∧
    ∀ (j : Nat) (tr : List StepResult) (s2 : Simulator T),
      iterSteps ph (fun k => s.select ph.fitness (tapes k)) starts j 0 simF =
        some (tr, s2) →
      s2.error.isSome = true ∧ StepResult.Success ∉ tr ∧
        isErrRes (Simulator.get ph.fitness s2) = true := by
  obtain ⟨hp, -, hft, -, herr, hsrc⟩ := step_failure_cases ph _ start0 sim simF hf
  have hinv : failedInv s simF := by
    refine ⟨herr, ?_⟩
    rcases hsrc with h1 | ⟨e, he⟩
    · exact Or.inl (by rw [hp, h1])
    · refine Or.inr ?_
      rw [hp]
      rw [← hft] at he
      exact invalid_of_select_error s ph.fitness tape0 sim.population simF.fitness_type e
        (by rw [hft] at he ⊢; exact he)
  refine ⟨herr, ?_⟩
  intro j tr s2 hiter
  obtain ⟨⟨herr2, -⟩, hnot⟩ := iterSteps_tournament_failedInv ph s tapes starts j 0 simF
    tr s2 hinv hiter
  exact ⟨herr2, hnot, get_isErr_of_error ph.fitness s2 herr2⟩

def simC9 : Simulator Int :=
  { population := [0, 1, 2]
    iter_limit := ⟨0, 100⟩
    fitness_type := .Minimize
    earlystopper := none
    error := none }

def simC9F : Simulator Int :=
  { simC9 with error := some ("Invalid parameter `count`: 2. Should be larger than zero, a " ++
      "multiple of two and less than half the population size.") }

/-- C9 witness: a tournament selector with count 2 on a three member
population fails validation; after the failing step and two further steps the
error is still recorded, no step returned Success and `get` still errors. -/
theorem claim_c9_witness :
    simC9F.error.isSome = true ∧
    StepResult.Success ∉ [StepResult.Failure, StepResult.Failure] ∧
    isErrRes (Simulator.get testPheno.fitness simC9F) = true := by
  have h := claim_c9_failure_is_permanent testPheno (TournamentSelector.mk 2 2)
    (fun _ => 0) (fun _ _ => 0) 0 (fun _ => 0) simC9 simC9F (by rfl)
  have h2 := h.2 2 [StepResult.Failure, StepResult.Failure] simC9F (by rfl)
  exact ⟨h.1, h2.2.1, h2.2.2⟩

/-! ## The iteration budget -/

/-- A step on a non-empty population whose budget (and early stopper, when
configured: here none) is reached returns Done and changes nothing. -/
theorem step_done_of_reached {T : Type} (ph : Pheno T) (sel : SelFun T) (start : Nat)
    (sim : Simulator T) (hne : sim.population ≠ []) (hes : sim.earlystopper = none)
    (hr : sim.iter_limit.reached = true) :
    Simulator.step ph sel start sim = some (.Done, sim) := by
  unfold Simulator.step
  rw [if_neg (by simp [List.isEmpty_iff, hne])]
  dsimp only
  rw [hes]
  rw [if_pos hr]

/-- A step with an Ok selector result of between one and population size minus
one pairs succeeds: the culling succeeds and the step returns Success with the
children appended and the budget advanced. -/
theorem step_success_of_ok {T : Type} (ph : Pheno T) (sel : SelFun T) (start : Nat)
    (sim : Simulator T) (ps : Parents T)
    (hne : sim.population ≠ []) (hes : sim.earlystopper = none)
    (hnr : sim.iter_limit.reached = false)
    (hsel : sel sim.population sim.fitness_type = some (.ok ps))
    (h0 : 0 < ps.length) (hlt : ps.length < sim.population.length) :
    ∃ culled, kill_off sim.population start ps.length = some culled ∧
      culled.length + ps.length = sim.population.length ∧
      Simulator.step ph sel start sim = some (.Success,
        { sim with
          population :=
            culled ++ ps.map (fun pair => ph.mutate (ph.crossover pair.1 pair.2)),
          iter_limit := sim.iter_limit.inc }) := by
  obtain ⟨culled, hkill, hlen2⟩ := kill_off_isSome sim.population start ps.length h0 hlt
  refine ⟨culled, hkill, hlen2, ?_⟩
  unfold Simulator.step
  rw [if_neg (by simp [List.isEmpty_iff, hne])]
  dsimp only
  rw [hes]
  rw [if_neg (by simp [hnr])]
  rw [hsel]
  dsimp only
  rw [List.length_map, hkill]

/-- One step never pushes the counter past the cap and never changes the cap. -/
theorem step_iter_le {T : Type} (ph : Pheno T) (sel : SelFun T) (start : Nat)
    (sim sim2 : Simulator T) (res : StepResult)
    (h : Simulator.step ph sel start sim = some (res, sim2)) :
    sim2.iter_limit.max = sim.iter_limit.max ∧
    (sim.iter_limit.curr ≤ sim.iter_limit.max →
      sim2.iter_limit.curr ≤ sim2.iter_limit.max) := by
  unfold Simulator.step at h
  split at h
  · simp only [Option.some.injEq, Prod.mk.injEq] at h
    obtain ⟨-, h2⟩ := h
    subst h2
    exact ⟨rfl, fun hc => hc⟩
  · dsimp only at h
    split at h
    · simp only [Option.some.injEq, Prod.mk.injEq] at h
      obtain ⟨-, h2⟩ := h
      subst h2
      exact ⟨rfl, fun hc => hc⟩
    · rename_i hss
      split at h
      · simp at h
      · simp only [Option.some.injEq, Prod.mk.injEq] at h
        obtain ⟨-, h2⟩ := h
        subst h2
        exact ⟨rfl, fun hc => hc⟩
      · split at h
        · simp at h
        · split at h
          · rename_i hesn
            simp only [Option.some.injEq, Prod.mk.injEq] at h
            obtain ⟨-, h2⟩ := h
            subst h2
            rw [hesn] at hss
            simp only [IterLimit.reached, decide_eq_true_eq] at hss
            refine ⟨rfl, fun _ => ?_⟩
            simp only [IterLimit.inc]
            omega
          · rename_i stopper hesn
            split at h
            · simp at h
            · rename_i best hbest
              simp only [Option.some.injEq, Prod.mk.injEq] at h
              obtain ⟨-, h2⟩ := h
              subst h2
              rw [hesn] at hss
              simp only [Bool.or_eq_true, not_or, IterLimit.reached,
                decide_eq_true_eq] at hss
              refine ⟨rfl, fun _ => ?_⟩
              simp only [IterLimit.inc]
              omega

theorem iterSteps_iter_le {T : Type} (ph : Pheno T) (sels : Nat → SelFun T)
    (starts : Nat → Nat) :
    ∀ (j k : Nat) (sim : Simulator T) (tr : List StepResult) (s2 : Simulator T),
      iterSteps ph sels starts j k sim = some (tr, s2) →
      sim.iter_limit.curr ≤ sim.iter_limit.max →
      s2.iter_limit.curr ≤ s2.iter_limit.max ∧ s2.iter_limit.max = sim.iter_limit.max := by
  intro j
  induction j with
  | zero =>
    intro k sim tr s2 h hc
    simp [iterSteps] at h
    obtain ⟨-, h2⟩ := h
    subst h2
    exact ⟨hc, rfl⟩
  | succ j ih =>
    intro k sim tr s2 h hc
    unfold iterSteps at h
    split at h
    · simp at h
    · rename_i res s2mid hstep
      split at h
      · simp at h
      · rename_i trr s3 hrest
        simp only [Option.some.injEq, Prod.mk.injEq] at h
        obtain ⟨-, h2⟩ := h
        subst h2
        obtain ⟨hm, hle⟩ := step_iter_le ph (sels k) (starts k) sim s2mid res hstep
        obtain ⟨ha, hb⟩ := ih (k + 1) s2mid trr s3 hrest (by rw [hm] at *; exact hle hc)
        exact ⟨ha, by rw [hb, hm]⟩

theorem runAux_reaches_done {T : Type} (ph : Pheno T) (sels : Nat → SelFun T)
    (starts : Nat → Nat) (n0 : Nat) (hn0 : 0 < n0)
    (hsel : ∀ (k : Nat) (pop : List T) (ft : FitnessType), pop.length = n0 →
      ∃ ps, sels k pop ft = some (.ok ps) ∧ 0 < ps.length ∧ ps.length < n0) :
    ∀ (d k : Nat) (sim : Simulator T), sim.population.length = n0 →
      sim.earlystopper = none →
      sim.iter_limit.curr + d = sim.iter_limit.max →
      ∃ sim2, runAux ph sels starts (d + 1) k sim = some (.Done, sim2) ∧
        sim2.iter_limit.curr = sim.iter_limit.max ∧
        sim2.iter_limit.max = sim.iter_limit.max := by
  intro d
  induction d with
  | zero =>
    intro k sim hlen hes hcd
    have hne : sim.population ≠ [] := by
      intro hc
      rw [hc] at hlen
      simp at hlen
      omega
    have hr : sim.iter_limit.reached = true := by
      simp only [IterLimit.reached]
      simp
      omega
    refine ⟨sim, ?_, by omega, rfl⟩
    unfold runAux
    rw [step_done_of_reached ph (sels k) (starts k) sim hne hes hr]
  | succ d ih =>
    intro k sim hlen hes hcd
    have hne : sim.population ≠ [] := by
      intro hc
      rw [hc] at hlen
      simp at hlen
      omega
    have hnr : sim.iter_limit.reached = false := by
      simp only [IterLimit.reached]
      simp
      omega
    obtain ⟨ps, hps, h0, hlt⟩ := hsel k sim.population sim.fitness_type hlen
    obtain ⟨culled, -, hlen2, hstep⟩ := step_success_of_ok ph (sels k) (starts k) sim ps
      hne hes hnr hps h0 (by omega)
    obtain ⟨sim2, hrun, hc2, hm2⟩ := ih (k + 1)
      { sim with
        population := culled ++ ps.map (fun pair => ph.mutate (ph.crossover pair.1 pair.2)),
        iter_limit := sim.iter_limit.inc }
      (by simp [List.length_append, List.length_map]; omega)
      (by simp [hes])
      (by simp [IterLimit.inc]; omega)
    refine ⟨sim2, ?_, by simp [IterLimit.inc] at hc2; omega, by simpa using hm2⟩
    unfold runAux
    rw [hstep]
    exact hrun

/-- C2 counterexample, first part: the claim as stated quantifies over every
selector whose `select` calls all succeed, but a selector that succeeds with an
empty parent list makes the step call `kill_off(0)`, whose
`population.len() / count` divides by zero: the very first step of `run()`
panics instead of completing a generation, on a simulator that satisfies all
of the claim hypotheses (non-empty population, no early stopper, max
iterations 1). -/
def selEmptyOk : Nat → SelFun Int := fun _ _ _ => some (Except.ok [])

def simC2bad : Simulator Int :=
  { population := [0]
    iter_limit := ⟨0, 1⟩
    fitness_type := .Maximize
    earlystopper := none
    error := none }

/-- C2 counterexample: with the always succeeding empty-result selector the
first step panics, so `run()` does not terminate with Done after M = 1
generations (the run is `none` for this and every larger fuel). -/
theorem claim_c2_counterexample :
    Simulator.step testPheno (selEmptyOk 0) 0 simC2bad = none ∧
    runAux testPheno selEmptyOk (fun _ => 0) 5 0 simC2bad = none := by
  constructor
  · rfl
  · rfl

/-- C2 as amended: for a simulator with max iterations M, a non-empty
population, no convergence detector, and a selector whose select calls all
succeed with at least one and fewer than population size parent pairs, `run()`
terminates with Done after exactly M generations (`iterations() = M`), and
after every sequence of steps `iterations() ≤ M` holds. -/
theorem claim_c2_amended_run_stops_at_max_iters {T : Type} (ph : Pheno T)
    (sels : Nat → SelFun T) (starts : Nat → Nat) (sim : Simulator T) (M n0 : Nat)
    (hpop : sim.population.length = n0) (hn0 : 0 < n0)
    (hes : sim.earlystopper = none)
    (hcurr : sim.iter_limit.curr = 0) (hmax : sim.iter_limit.max = M)
    (hsel : ∀ (k : Nat) (pop : List T) (ft : FitnessType), pop.length = n0 →
      ∃ ps, sels k pop ft = some (.ok ps) ∧ 0 < ps.length ∧ ps.length < n0) :
    (∃ sim2, runAux ph sels starts (M + 1) 0 sim = some (.Done, sim2) ∧
      sim2.iterations = M) ∧
    (∀ (j : Nat) (tr : List StepResult) (s2 : Simulator T),
      iterSteps ph sels starts j 0 sim = some (tr, s2) → s2.iterations ≤ M) := by
  constructor
  · obtain ⟨sim2, hrun, hc2, -⟩ := runAux_reaches_done ph sels starts n0 hn0 hsel M 0 sim
      hpop hes (by omega)
    exact ⟨sim2, hrun, by simp [Simulator.iterations, IterLimit.get]; omega⟩
  · intro j tr s2 hiter
    obtain ⟨ha, hb⟩ := iterSteps_iter_le ph sels starts j 0 sim tr s2 hiter (by omega)
    simp only [Simulator.iterations, IterLimit.get]
    omega

def selC2 : Nat → SelFun Int := fun _ _ _ => some (Except.ok [((0 : Int), 0)])

def simC2 : Simulator Int :=
  { population := [0, 1, 2, 3, 4]
    iter_limit := ⟨0, 2⟩
    fitness_type := .Maximize
    earlystopper := none
    error := none }

/-- C2 witness: a five member population with max iterations 2 and a selector
always returning one pair runs to Done with exactly two iterations. -/
theorem claim_c2_witness :
    (runAux testPheno selC2 (fun _ => 0) 3 0 simC2).map
      (fun p => (p.1, p.2.iterations)) = some (RunResult.Done, 2) := by
  obtain ⟨⟨sim2, hrun, hit⟩, -⟩ := claim_c2_amended_run_stops_at_max_iters testPheno selC2
    (fun _ => 0) simC2 2 5 rfl (by omega) rfl rfl rfl
    (fun k pop ft hlen => ⟨[((0 : Int), 0)], rfl, by simp, by simp⟩)
  rw [hrun]
  simp [hit]

/-! ## Tournament rounds: shape of the output pairs -/

/-- The claimed dominance of a parent pair over another member of its
tournament sample: both fitness values at least (`Maximize`) or at most
(`Minimize`) the fitness of the other member. -/
def pairDominates {T : Type} (ft : FitnessType) (f : T → ℚ) (pr : T × T) (x : T) : Prop :=
  match ft with
  | .Maximize => f x ≤ f pr.1 ∧ f x ≤ f pr.2
  | .Minimize => f pr.1 ≤ f x ∧ f pr.2 ≤ f x

/-- The top two of a sorted sample are two sample members dominating every
other member of the sample. -/
theorem topTwo_spec {T : Type} (f : T → ℚ) (ft : FitnessType) (sample : List T)
    (pr : T × T) (h : topTwo ft (sortByFitness f sample) = some pr) :
    ∃ rest, sample.Perm (pr.1 :: pr.2 :: rest) ∧
      ∀ x ∈ rest, pairDominates ft f pr x := by
  have hperm : sample.Perm (sortByFitness f sample) := (sortByFitness_perm f sample).symm
  have hpw := sortByFitness_pairwise f sample
  cases ft with
  | Minimize =>
    cases hs : sortByFitness f sample with
    | nil => rw [hs] at h; simp [topTwo] at h
    | cons a t1 =>
      cases t1 with
      | nil => rw [hs] at h; simp [topTwo] at h
      | cons b rest =>
        rw [hs] at h hperm hpw
        simp only [topTwo, List.getElem?_cons_zero, List.getElem?_cons_succ,
          Option.some.injEq] at h
        subst h
        refine ⟨rest, hperm, ?_⟩
        intro x hx
        simp only [List.pairwise_cons] at hpw
        exact ⟨hpw.1 x (List.mem_cons_of_mem b hx), hpw.2.1 x hx⟩
  | Maximize =>
    rcases hlen : (sortByFitness f sample).length with - | n1
    · rw [topTwo] at h
      rw [hlen] at h
      simp at h
    · rcases n1 with - | n2
      · rw [topTwo] at h
        rw [hlen] at h
        simp at h
      · obtain ⟨ys, b, a, hys⟩ := exists_concat_two (sortByFitness f sample) (by omega)
        rw [hys] at h hperm hpw
        have h1 : (ys ++ [b, a]).length - 1 = ys.length + 1 := by simp
        have h2 : (ys ++ [b, a]).length - 2 = ys.length := by simp
        rw [topTwo] at h
        rw [if_pos (by simp), h1, h2,
          List.getElem?_append_right (by omega),
          List.getElem?_append_right (by omega)] at h
        simp only [Nat.add_sub_cancel_left, Nat.sub_self, List.getElem?_cons_succ,
          List.getElem?_cons_zero, Option.some.injEq] at h
        subst h
        refine ⟨ys, ?_, ?_⟩
        · refine hperm.trans ?_
          refine (List.perm_append_comm).trans ?_
          exact List.Perm.swap a b ys
        · intro x hx
          have := (List.pairwise_append.mp hpw).2.2
          exact ⟨this x hx a (by simp), this x hx b (by simp)⟩

/-- Every parent pair a successful run of the rounds produces is the top two
of its own tournament sample: the sample drawn at tape positions
`base + k * participants ...` is a permutation of the pair followed by members
the pair dominates; and there are exactly `r` pairs. -/
theorem tournamentRounds_spec {T : Type} (f : T → ℚ) (pop : List T)
    (participants : Nat) (tape : Nat → Nat) (ft : FitnessType) :
    ∀ (r base : Nat) (pairs : Parents T),
      tournamentRounds f pop participants tape ft base r = some pairs →
      pairs.length = r ∧
      ∀ (k : Nat) (hk : k < pairs.length), ∃ sample,
        sampleDraws pop tape (base + k * participants) participants = some sample ∧
        ∃ rest, sample.Perm ((pairs.get ⟨k, hk⟩).1 :: (pairs.get ⟨k, hk⟩).2 :: rest) ∧
          ∀ x ∈ rest, pairDominates ft f (pairs.get ⟨k, hk⟩) x := by
  intro r
  induction r with
  | zero =>
    intro base pairs h
    simp [tournamentRounds] at h
    subst h
    exact ⟨rfl, fun k hk => absurd hk (by simp)⟩
  | succ r ih =>
    intro base pairs h
    unfold tournamentRounds at h
    split at h
    · simp at h
    · rename_i sample hsample
      split at h
      · simp at h
      · rename_i pair hpair
        split at h
        · simp at h
        · rename_i rest2 hrest2
          simp only [Option.some.injEq] at h
          subst h
          obtain ⟨hlen, hspec⟩ := ih (base + participants) rest2 hrest2
          refine ⟨by simp [hlen], ?_⟩
          intro k hk
          cases k with
          | zero =>
            refine ⟨sample, by simpa using hsample, ?_⟩
            exact topTwo_spec f ft sample pair hpair
          | succ k =>
            have hk2 : k < rest2.length := by simpa using hk
            obtain ⟨sample2, hs2, hrest⟩ := hspec k hk2
            refine ⟨sample2, ?_, ?_⟩
            · have harith : base + participants + k * participants =
                base + (k + 1) * participants := by ring
              rw [← harith]
              exact hs2
            · simpa using hrest

/-- A successful `select` passed both validations and its pairs are the
rounds output. -/
theorem select_ok_inv {T : Type} (s : TournamentSelector) (f : T → ℚ)
    (tape : Nat → Nat) (pop : List T) (ft : FitnessType) (pairs : Parents T)
    (h : s.select f tape pop ft = some (.ok pairs)) :
    ¬(s.count = 0 ∨ s.count % 2 ≠ 0 ∨ s.count * 2 ≥ pop.length) ∧
    ¬(s.participants = 0 ∨ s.participants ≥ pop.length) ∧
    tournamentRounds f pop s.participants tape ft 0 (s.count / 2) = some pairs := by
  unfold TournamentSelector.select at h
  split at h
  · simp at h
  · split at h
    · simp at h
    · rename_i h1 h2
      refine ⟨h1, h2, ?_⟩
      cases hr : tournamentRounds f pop s.participants tape ft 0 (s.count / 2) with
      | none => rw [hr] at h; simp at h
      | some ps =>
        rw [hr] at h
        simp at h
        rw [h]

/-- C5: every parent pair of a valid tournament `select` call is the top two
of the tournament sample it was drawn from, for the active fitness type: the
sample is a permutation of the pair followed by members whose fitness the pair
dominates. -/
theorem claim_c5_pairs_dominate_their_tournament {T : Type} (s : TournamentSelector)
    (f : T → ℚ) (tape : Nat → Nat) (pop : List T) (ft : FitnessType)
    (pairs : Parents T) (h : s.select f tape pop ft = some (.ok pairs))
    (k : Nat) (hk : k < pairs.length) :
    ∃ sample, sampleDraws pop tape (k * s.participants) s.participants = some sample ∧
      ∃ rest, sample.Perm ((pairs.get ⟨k, hk⟩).1 :: (pairs.get ⟨k, hk⟩).2 :: rest) ∧
        ∀ x ∈ rest, pairDominates ft f (pairs.get ⟨k, hk⟩) x := by
  obtain ⟨-, -, hrounds⟩ := select_ok_inv s f tape pop ft pairs h
  obtain ⟨-, hspec⟩ := tournamentRounds_spec f pop s.participants tape ft
    (s.count / 2) 0 pairs hrounds
  have := hspec k hk
  simpa using this

def popC5 : List Int := [0, 1, 2, 3, 4]

/-- C5 witness: a tournament with two participants drawn at tape positions 0
and 1 from a five member population under `Minimize` yields the pair (0, 1),
which dominates the (empty) remainder of its sample. -/
theorem claim_c5_witness :
    ∃ sample, sampleDraws popC5 (fun k => k) (0 * 2) 2 = some sample ∧
      ∃ rest, sample.Perm ((0 : Int) :: 1 :: rest) ∧
        ∀ x ∈ rest, pairDominates .Minimize testPheno.fitness ((0 : Int), 1) x := by
  have h := claim_c5_pairs_dominate_their_tournament (TournamentSelector.mk 2 2)
    testPheno.fitness (fun k => k) popC5 .Minimize [((0 : Int), 1)] (by rfl) 0 (by simp)
  simpa using h

/-- C6: every successful tournament `select` call returns exactly `count / 2`
parent pairs, so twice the number of returned pairs is the accepted `count`. -/
theorem claim_c6_pair_count {T : Type} (s : TournamentSelector) (f : T → ℚ)
    (tape : Nat → Nat) (pop : List T) (ft : FitnessType) (pairs : Parents T)
    (h : s.select f tape pop ft = some (.ok pairs)) :
    pairs.length * 2 = s.count := by
  obtain ⟨h1, -, hrounds⟩ := select_ok_inv s f tape pop ft pairs h
  obtain ⟨hlen, -⟩ := tournamentRounds_spec f pop s.participants tape ft
    (s.count / 2) 0 pairs hrounds
  push_neg at h1
  omega

def popC6 : List Int := (List.range 100).map Int.ofNat

def pairsC6 : Parents Int :=
  [(0, 1), (5, 6), (10, 11), (15, 16), (20, 21),
   (25, 26), (30, 31), (35, 36), (40, 41), (45, 46)]

/-- C6 witness: count 20 with 5 participants on a 100 member population
returns exactly 10 pairs (here for the identity tape under `Minimize`). -/
theorem claim_c6_witness : pairsC6.length * 2 = 20 :=
  claim_c6_pair_count (TournamentSelector.mk 20 5) testPheno.fitness (fun k => k)
    popC6 .Minimize pairsC6 (by rfl)

end RsGenetic
